import Mathlib

/-!
Shallow embedding of the InvestmentPortfolioBacktester analytics core
(`model.py`: `PortfolioModel.portfolio_value_from_prices`, `risk_metrics`,
`annualized_return`; `controller.py`: the per-sample statistics and the
argmin/argmax selection step of `Controller.optimize_page`).

Modelling conventions:
* Python floats are modelled as exact rationals (`ℚ`) where the code only
  uses field operations, and as reals (`ℝ`) where `math.sqrt` or a real
  power enters.
* A pandas value that is NaN (a missing price, or a statistic pandas leaves
  as NaN, such as the `ddof=1` standard deviation of a single point) is
  modelled as `none : Option ℚ` / `none : Option ℝ`.  Pandas comparison
  with NaN is `False`, element-wise arithmetic propagates NaN, pandas
  `Series.min` skips NaN, and `np.max` propagates NaN; each model function
  reproduces the behaviour of the pandas operation the source line uses.
* A pandas `DataFrame` of prices is a `PriceTable`: a row count plus an
  association list from column name (ticker) to a column of optional
  prices.  A Python `dict` is an insertion-ordered association list with
  unique keys; a dict comprehension that can collide keys is modelled by
  `upsert` (last value wins, first position kept).
* `value.pct_change()` is modelled without forward-filling
  (`fill_method=None` semantics); a zero previous value (which pandas turns
  into an infinity) is modelled as a dropped point.  No claim below
  depends on either convention.
-/

/-! ## Generic list helpers (numpy/pandas reductions) -/

/-- Minimum of a list of rationals, `none` on the empty list. -/
def listMin : List ℚ → Option ℚ
  | [] => none
  | x :: xs =>
    match listMin xs with
    | none => some x
    | some m => some (min x m)

/-- Maximum of a list of rationals, `none` on the empty list. -/
def listMax : List ℚ → Option ℚ
  | [] => none
  | x :: xs =>
    match listMax xs with
    | none => some x
    | some m => some (max x m)

/-- First index of the minimum (`np.argmin` / `np.nanargmin` on NaN-free
data): ties are broken by the first occurrence. -/
def argminIdx : List ℚ → ℕ
  | [] => 0
  | x :: xs =>
    match listMin xs with
    | none => 0
    | some m => if x ≤ m then 0 else argminIdx xs + 1

/-- First index of the maximum (`np.argmax` / `np.nanargmax` on NaN-free
data): ties are broken by the first occurrence. -/
def argmaxIdx : List ℚ → ℕ
  | [] => 0
  | x :: xs =>
    match listMax xs with
    | none => 0
    | some m => if m ≤ x then 0 else argmaxIdx xs + 1

/-- `pandas.Series.min` with its default `skipna=True`: the minimum of the
non-NaN entries, NaN (`none`) if there is none. -/
def pandasMin (l : List (Option ℚ)) : Option ℚ :=
  listMin (l.filterMap id)

/-- `np.max`: NaN-propagating maximum (`none` as soon as one entry is NaN,
`none` on the empty list as well). -/
def npMax (l : List (Option ℚ)) : Option ℚ :=
  if l.any (fun o => o.isNone) then none else listMax (l.filterMap id)

/-- Sum of the values of an association list (`sum(d.values())`). -/
def sumValues (l : List (String × ℚ)) : ℚ :=
  (l.map Prod.snd).sum

/-- Python `str.upper()` (`t.upper()` in model.py line 88): uppercase each
character.  Equal to `String.toUpper` (see `pyUpper_eq_toUpper`), but
written structurally on the character list. -/
def pyUpper (s : String) : String :=
  ⟨s.data.map Char.toUpper⟩

/-- Python dict assignment `d[k] = v`: replace the value in place if the
key exists, else append at the end. -/
def upsert : List (String × ℚ) → String → ℚ → List (String × ℚ)
  | [], k, v => [(k, v)]
  | (k', v') :: rest, k, v =>
    if k' = k then (k', v) :: rest else (k', v') :: upsert rest k v

/-! ## Price tables (`pandas.DataFrame` of adjusted closes) -/

/-- A price table: `nrows` dates (the index) and an ordered list of
columns, one per ticker; a `none` entry is a NaN (a gap for that ticker on
that date).  Well-formedness (every column has length `nrows`, column
names unique) is assumed as a hypothesis where a theorem needs it. -/
structure PriceTable where
  nrows : ℕ
  cols : List (String × List (Option ℚ))

/-- `DataFrame.empty`: true iff the index or the column axis is empty. -/
def dfEmpty (pt : PriceTable) : Bool :=
  pt.nrows == 0 || pt.cols.isEmpty

/-- The column names (`prices.columns`). -/
def colNames (pt : PriceTable) : List String :=
  pt.cols.map Prod.fst

/-- `prices[t].iloc[i]`: the price of ticker `t` on date `i`; `none` if the
column is absent, the row does not exist, or the entry is NaN. -/
def priceAt (pt : PriceTable) (t : String) (i : ℕ) : Option ℚ :=
  ((pt.cols.lookup t).bind (fun col => col.get? i)).join

/-! ## `PortfolioModel.portfolio_value_from_prices` (model.py lines 84-109) -/

/-- Line 88: `{t.upper(): w for t, w in weights.items() if t.upper() in
prices.columns}` — keep the weights whose uppercased ticker is a column,
keyed by the uppercased ticker (a dict comprehension, so a later colliding
key overwrites the earlier value). -/
def weightsAvailable (pt : PriceTable) (weights : List (String × ℚ)) :
    List (String × ℚ) :=
  weights.foldl
    (fun m p =>
      if (colNames pt).contains (pyUpper p.1) then upsert m (pyUpper p.1) p.2 else m)
    []

/-- Line 92: `{t: w / total for t, w in weights_available.items()}`. -/
def normalizedOf (wa : List (String × ℚ)) : List (String × ℚ) :=
  wa.map (fun p => (p.1, p.2 / sumValues wa))

/-- Lines 94-99: `initial_shares` — for each normalized ticker whose
first-date price exists and is positive, `initial_investment * w /
first_price`; other tickers are dropped. -/
def initialSharesOf (pt : PriceTable) (wa : List (String × ℚ)) (I : ℚ) :
    List (String × ℚ) :=
  (normalizedOf wa).filterMap (fun p =>
    match priceAt pt p.1 0 with
    | some fp => if 0 < fp then some (p.1, I * p.2 / fp) else none
    | none => none)

/-- Lines 103-105 at one date: start from `0.0` and add
`prices[t].iloc[i] * shares` for each held ticker; a NaN price propagates
(pandas `Series` addition), so the date's value is NaN. -/
def rowValue (pt : PriceTable) (shares : List (String × ℚ)) (i : ℕ) :
    Option ℚ :=
  shares.foldl
    (fun acc p =>
      match acc, priceAt pt p.1 i with
      | some a, some pr => some (a + pr * p.2)
      | _, _ => none)
    (some 0)

/-- Lines 103-105: the value series, one entry per date of the table. -/
def valueSeriesOf (pt : PriceTable) (shares : List (String × ℚ)) :
    List (Option ℚ) :=
  (List.range pt.nrows).map (rowValue pt shares)

/-- Line 107: `value.pct_change().dropna()` — consecutive percentage
changes, dropping undefined points (the first, and any pair touching a
NaN; a zero or non-finite base is likewise dropped). -/
def pctChangeDropna (v : List (Option ℚ)) : List ℚ :=
  (v.zip v.tail).filterMap (fun q =>
    match q.1, q.2 with
    | some a, some b => if a = 0 then none else some (b / a - 1)
    | _, _ => none)

/-- `PortfolioModel.portfolio_value_from_prices` (model.py lines 84-109):
returns the (value series, return series) pair, or two empty series in
each degenerate case. -/
def portfolio_value_from_prices (pt : PriceTable)
    (weights : List (String × ℚ)) (I : ℚ) :
    List (Option ℚ) × List ℚ :=
  if dfEmpty pt || weights.isEmpty then ([], [])
  else
    let wa := weightsAvailable pt weights
    if sumValues wa ≤ 0 then ([], [])
    else
      let shares := initialSharesOf pt wa I
      if shares.isEmpty then ([], [])
      else (valueSeriesOf pt shares, pctChangeDropna (valueSeriesOf pt shares))

/-- The normalized weights that survive the first-date filter of lines
94-99 (first price present and positive): the tickers actually held, with
their normalized weights. -/
def survivedNormWeights (pt : PriceTable) (wa : List (String × ℚ)) :
    List (String × ℚ) :=
  (normalizedOf wa).filter (fun p =>
    match priceAt pt p.1 0 with
    | some fp => decide (0 < fp)
    | none => false)

/-! ## `PortfolioModel.risk_metrics` (model.py lines 112-136) -/

/-- `Series.mean()`. -/
def seriesMean (l : List ℚ) : ℚ :=
  l.sum / l.length

/-- `Series.std()` (pandas default `ddof=1`): the square root of the
sample variance; NaN (`none`) when the series has fewer than two points. -/
noncomputable def seriesStd (l : List ℚ) : Option ℝ :=
  if l.length < 2 then none
  else some (Real.sqrt
    (((l.map (fun x => (x - seriesMean l) ^ 2)).sum / (l.length - 1 : ℚ) : ℚ)))

/-- `(1 + daily_returns).cumprod()` starting from the accumulator `a`. -/
def cumprodAux (a : ℚ) : List ℚ → List ℚ
  | [] => []
  | r :: rs => a * (1 + r) :: cumprodAux (a * (1 + r)) rs

/-- Line 126: the cumulative wealth curve `cum = (1 + daily_returns).cumprod()`. -/
def cumWealth (rs : List ℚ) : List ℚ :=
  cumprodAux 1 rs

/-- Running maximum continuing from `m`. -/
def cummaxAux (m : ℚ) : List ℚ → List ℚ
  | [] => []
  | x :: xs => max m x :: cummaxAux (max m x) xs

/-- Line 127: `cum.cummax()`. -/
def cummax : List ℚ → List ℚ
  | [] => []
  | x :: xs => x :: cummaxAux x xs

/-- Line 128: the drawdown series `(cum / running_max) - 1`.  Whenever the
running maximum is `0` the cumulative wealth is `0` as well (a zero factor
stays in every later product), so pandas computes `0/0 = NaN` there,
modelled as `none`; a nonzero running maximum divides exactly. -/
def ddTerms (rs : List ℚ) : List (Option ℚ) :=
  List.zipWith
    (fun c m => if m = 0 then none else some (c / m - 1))
    (cumWealth rs) (cummax (cumWealth rs))

/-- Line 129: `drawdown.min()` (pandas skips NaN entries). -/
def drawdownMin (rs : List ℚ) : Option ℚ :=
  pandasMin (ddTerms rs)

/-- Line 117: `vol_ann = daily_returns.std() * math.sqrt(252)` (NaN if the
standard deviation is NaN). -/
noncomputable def volAnn (rs : List ℚ) : Option ℝ :=
  (seriesStd rs).map (fun s => s * Real.sqrt 252)

/-- Line 119: `excess = daily_returns.mean() - rf_daily`. -/
def excessMean (rs : List ℚ) (rf : ℚ) : ℚ :=
  seriesMean rs - rf / 252

/-- Line 120: `sharpe = (excess / std) * sqrt(252) if std > 0 else 0.0`; a
NaN standard deviation compares false in Python, giving `0.0`. -/
noncomputable def sharpeVal (rs : List ℚ) (rf : ℚ) : ℝ :=
  match seriesStd rs with
  | some s => if 0 < s then (excessMean rs rf : ℝ) / s * Real.sqrt 252 else 0
  | none => 0

/-- Line 122: `downside = daily_returns[daily_returns < 0]`. -/
def downsideList (rs : List ℚ) : List ℚ :=
  rs.filter (fun x => decide (x < 0))

/-- Line 123: `downside_dev = downside.std() * sqrt(252) if len(downside) >
0 else 0.0` (NaN when downside has exactly one point). -/
noncomputable def downsideDev (rs : List ℚ) : Option ℝ :=
  if 0 < (downsideList rs).length then
    (seriesStd (downsideList rs)).map (fun s => s * Real.sqrt 252)
  else some 0

/-- Line 124: `sortino = (excess / downside_dev) * sqrt(252) if
downside_dev > 0 else 0.0`. -/
noncomputable def sortinoVal (rs : List ℚ) (rf : ℚ) : ℝ :=
  match downsideDev rs with
  | some d => if 0 < d then (excessMean rs rf : ℝ) / d * Real.sqrt 252 else 0
  | none => 0

/-- Line 129: `max_dd = drawdown.min() if not drawdown.empty else 0.0`. -/
def maxDdVal (rs : List ℚ) : Option ℚ :=
  if (ddTerms rs).isEmpty then some 0 else drawdownMin rs

/-- `PortfolioModel.risk_metrics` (model.py lines 112-136): the returned
Python dict, as an insertion-ordered association list; a `none` value is a
float NaN.  `sharpe` and `sortino` fall back to `0.0` unless their
denominator compares `> 0` (a NaN denominator compares false). -/
noncomputable def risk_metrics (daily_returns : List ℚ)
    (risk_free_rate_annual : ℚ) : List (String × Option ℝ) :=
  if daily_returns.isEmpty then
    [("sharpe_ratio", some 0), ("sortino_ratio", some 0),
     ("volatility_annual", some 0), ("max_drawdown", some 0)]
  else
    [("sharpe_ratio", some (sharpeVal daily_returns risk_free_rate_annual)),
     ("sortino_ratio", some (sortinoVal daily_returns risk_free_rate_annual)),
     ("volatility_annual", volAnn daily_returns),
     ("max_drawdown", (maxDdVal daily_returns).map (fun q => (q : ℝ)))]

/-! ## `PortfolioModel.annualized_return` (model.py lines 138-143) -/

/-- `PortfolioModel.annualized_return`: `0` for a non-positive day count,
else `((1 + total_return_pct/100) ** (365.0/days) - 1) * 100` with a real
power and the 365-calendar-day convention. -/
noncomputable def annualized_return (total_return_pct : ℚ) (days : ℤ) : ℝ :=
  if days ≤ 0 then 0
  else ((1 + (total_return_pct : ℝ) / 100) ^ ((365 : ℝ) / (days : ℝ)) - 1) * 100

/-! ## `Controller.optimize_page`: per-sample statistics and selection
(controller.py lines 167-216) -/

/-- Line 179, one sample: the terms `1 - cum / running_max` over the
sample's cumulative wealth curve (same zero-denominator analysis as in
`ddTerms`). -/
def optDrawdownTerms (rs : List ℚ) : List (Option ℚ) :=
  List.zipWith
    (fun c m => if m = 0 then none else some (1 - c / m))
    (cumWealth rs) (cummax (cumWealth rs))

/-- Line 179, one sample: `np.max(1 - cum/run_max) * 100` — the
optimizer's per-sample max drawdown, in percent. -/
def optMaxDrawdown (rs : List ℚ) : Option ℚ :=
  (npMax (optDrawdownTerms rs)).map (fun v => v * 100)

/-- The optimization objectives of the selectbox (controller.py lines
122-129, 182-216). -/
inductive Metric where
  | sortinoRatioM
  | sharpeRatioM
  | annualizedReturnM
  | minimumVolatility
  | calmarRatioM
  | sortinoCalmarM
  | betaM
deriving DecidableEq

/-- The per-sample statistics arrays of controller.py lines 175-188, one
entry per sampled weight vector (computed upstream of the selection; the
selection step below consumes them as given). -/
structure SampleStats where
  ann_returns : List ℚ
  downside : List ℚ
  total_vol : List ℚ
  max_drawdown : List ℚ
  beta_vals : List ℚ

/-- The small epsilon `1e-12` added to ratio denominators. -/
def epsDenom : ℚ := 1 / 1000000000000

/-- Lines 190-215: the `objective` array per metric. -/
def objectiveVals (m : Metric) (s : SampleStats) (rf_percent : ℚ) : List ℚ :=
  match m with
  | .sortinoRatioM =>
    List.zipWith (fun a d => (a - rf_percent) / (d + epsDenom)) s.ann_returns s.downside
  | .sharpeRatioM =>
    List.zipWith (fun a v => (a - rf_percent) / (v + epsDenom)) s.ann_returns s.total_vol
  | .annualizedReturnM => s.ann_returns
  | .minimumVolatility => s.total_vol
  | .calmarRatioM =>
    List.zipWith (fun a d => a / (d + epsDenom)) s.ann_returns s.max_drawdown
  | .sortinoCalmarM =>
    List.zipWith (fun x y => x * y)
      (List.zipWith (fun a d => (a - rf_percent) / (d + epsDenom)) s.ann_returns s.downside)
      (List.zipWith (fun a d => a / (d + epsDenom)) s.ann_returns s.max_drawdown)
  | .betaM => s.beta_vals

/-- Lines 189-216: `best_idx` — `np.argmin(np.abs(beta_vals - 1))` for
`Beta`, `np.nanargmin` of the objective for `Minimum Volatility`,
`np.nanargmax` of the objective for every other metric. -/
def best_idx (m : Metric) (s : SampleStats) (rf_percent : ℚ) : ℕ :=
  match m with
  | .betaM => argminIdx (s.beta_vals.map (fun b => |b - 1|))
  | .minimumVolatility => argminIdx (objectiveVals m s rf_percent)
  | _ => argmaxIdx (objectiveVals m s rf_percent)

/-- The array whose extremum the selection takes, per metric (the
objective itself, except for `Beta`, where the code minimizes
`np.abs(beta_vals - 1)`). -/
def selectionScores (m : Metric) (s : SampleStats) (rf_percent : ℚ) : List ℚ :=
  match m with
  | .betaM => s.beta_vals.map (fun b => |b - 1|)
  | _ => objectiveVals m s rf_percent

/-- Metrics whose selection is an argmin rather than an argmax. -/
def isMinimized (m : Metric) : Bool :=
  match m with
  | .betaM => true
  | .minimumVolatility => true
  | _ => false

/-! ## Helper lemmas -/

theorem char_toUpper_idem (c : Char) : c.toUpper.toUpper = c.toUpper := by
  simp only [Char.toUpper]
  by_cases h : 97 ≤ c.toNat ∧ c.toNat ≤ 122
  · rw [if_pos h]
    have hv : Nat.isValidChar (c.toNat - 32) := Or.inl (by omega)
    have ht : (Char.ofNat (c.toNat - 32)).toNat = c.toNat - 32 := by
      rw [Char.ofNat, dif_pos hv]
      simp [Char.ofNatAux, Char.toNat, UInt32.toNat, BitVec.toNat_ofNatLt]
    rw [if_neg]
    rw [ht]
    omega
  · rw [if_neg h, if_neg h]

theorem pyUpper_eq_toUpper (s : String) : pyUpper s = s.toUpper := by
  rw [String.toUpper, String.map_eq, pyUpper]

theorem pyUpper_idem (s : String) : pyUpper (pyUpper s) = pyUpper s := by
  simp only [pyUpper]
  congr 1
  rw [List.map_map]
  exact List.map_congr_left (fun c _ => char_toUpper_idem c)

theorem sumValues_normalizedOf (wa : List (String × ℚ)) :
    sumValues (normalizedOf wa) = sumValues wa / sumValues wa := by
  simp only [normalizedOf, sumValues, List.map_map, Function.comp_def]
  simp only [div_eq_mul_inv]
  exact List.sum_map_mul_right _ _ _

theorem weightsAvailable_nil_of_no_overlap (pt : PriceTable)
    (w : List (String × ℚ)) (h : ∀ p ∈ w, pyUpper p.1 ∉ colNames pt) :
    weightsAvailable pt w = [] := by
  have key : ∀ (l : List (String × ℚ)) (m : List (String × ℚ)),
      (∀ p ∈ l, pyUpper p.1 ∉ colNames pt) →
      l.foldl (fun m p =>
        if (colNames pt).contains (pyUpper p.1) then upsert m (pyUpper p.1) p.2 else m) m = m := by
    intro l
    induction l with
    | nil => intro m _; rfl
    | cons x xs ih =>
      intro m hl
      have hx : (colNames pt).contains (pyUpper x.1) = false := by
        have := hl x (List.mem_cons_self x xs)
        simpa using this
      simp only [List.foldl_cons, hx, Bool.false_eq_true, if_false]
      exact ih m (fun p hp => hl p (List.mem_cons_of_mem x hp))
  exact key w [] h

theorem initialShares_nil_of_no_positive_first (pt : PriceTable)
    (wa : List (String × ℚ)) (I : ℚ)
    (h : ∀ p ∈ wa, ∀ fp, priceAt pt p.1 0 = some fp → fp ≤ 0) :
    initialSharesOf pt wa I = [] := by
  rw [initialSharesOf, List.filterMap_eq_nil_iff]
  intro p hp
  rcases List.mem_map.1 hp with ⟨q, hq, rfl⟩
  cases hfp : priceAt pt q.1 0 with
  | none => simp [hfp]
  | some fp =>
    have := h q hq fp hfp
    simp [hfp, not_lt.2 this]

theorem weightsAvailable_upper_keys (pt : PriceTable) (w : List (String × ℚ)) :
    weightsAvailable pt (w.map (fun p => (pyUpper p.1, p.2))) =
      weightsAvailable pt w := by
  simp only [weightsAvailable, List.foldl_map]
  congr 1
  funext m p
  rw [pyUpper_idem]

/-! ## Claims C2, C6, C7, C10 -/

theorem pvfp_eq (pt : PriceTable) (w : List (String × ℚ)) (I : ℚ) :
    portfolio_value_from_prices pt w I =
      if dfEmpty pt || w.isEmpty then ([], [])
      else if sumValues (weightsAvailable pt w) ≤ 0 then ([], [])
      else if (initialSharesOf pt (weightsAvailable pt w) I).isEmpty then ([], [])
      else (valueSeriesOf pt (initialSharesOf pt (weightsAvailable pt w) I),
            pctChangeDropna (valueSeriesOf pt (initialSharesOf pt (weightsAvailable pt w) I))) := rfl

/-- C2: `portfolio_value_from_prices` returns two empty series (and no
exception — the model function is total) whenever the price table is
empty, no weight-map ticker matches a column case-insensitively, the
overlapping weights sum to at most `0`, or no overlapping ticker has a
positive first-date price. -/
theorem C2_degenerate_empty (pt : PriceTable) (w : List (String × ℚ)) (I : ℚ)
    (h : dfEmpty pt = true
      ∨ (∀ p ∈ w, pyUpper p.1 ∉ colNames pt)
      ∨ sumValues (weightsAvailable pt w) ≤ 0
      ∨ (∀ p ∈ weightsAvailable pt w, ∀ fp, priceAt pt p.1 0 = some fp → fp ≤ 0)) :
    portfolio_value_from_prices pt w I = ([], []) := by
  rcases h with h1 | h2 | h3 | h4
  · simp [portfolio_value_from_prices, h1]
  · have hwa : weightsAvailable pt w = [] := weightsAvailable_nil_of_no_overlap pt w h2
    rw [pvfp_eq, hwa]
    split_ifs <;> first | rfl | (exfalso; simp_all [sumValues])
  · rw [pvfp_eq]
    split_ifs
    · rfl
    · rfl
  · have hsh : initialSharesOf pt (weightsAvailable pt w) I = [] :=
      initialShares_nil_of_no_positive_first pt _ I h4
    rw [pvfp_eq, hsh]
    split_ifs <;> first | rfl | (exfalso; simp_all)

/-- C2 witness: the empty price table with a nonempty weight map yields two
empty series. -/
theorem C2_degenerate_empty_witness :
    portfolio_value_from_prices ⟨0, []⟩ [("A", 1)] 10000 = ([], []) :=
  C2_degenerate_empty ⟨0, []⟩ [("A", 1)] 10000 (Or.inl rfl)

/-- C6: whenever the weights surviving the column filter have positive
sum, the renormalized weights sum to exactly `1`. -/
theorem C6_renormalize_sum_one (pt : PriceTable) (w : List (String × ℚ))
    (h : 0 < sumValues (weightsAvailable pt w)) :
    sumValues (normalizedOf (weightsAvailable pt w)) = 1 := by
  rw [sumValues_normalizedOf]
  exact div_self (ne_of_gt h)

/-- C6 witness: a two-ticker weight map with sum `4` renormalizes to sum
`1`. -/
theorem C6_renormalize_sum_one_witness :
    sumValues (normalizedOf (weightsAvailable
      ⟨1, [("A", [some 1]), ("B", [some 1])]⟩ [("A", 1), ("B", 3)])) = 1 :=
  C6_renormalize_sum_one _ _ (by
    have hwa : weightsAvailable ⟨1, [("A", [some 1]), ("B", [some 1])]⟩
        [("A", 1), ("B", 3)] = [("A", 1), ("B", 3)] := rfl
    rw [hwa]
    norm_num [sumValues])

/-- C7: `annualized_return` is `0` for non-positive elapsed days, is the
365-calendar-day compounding formula for positive days, and in particular
maps a 0% total return over 365 days to 0% and a 100% total return over
365 days to 100%. -/
theorem C7_annualized_return_spec :
    (∀ (t : ℚ) (d : ℤ), d ≤ 0 → annualized_return t d = 0) ∧
    (∀ (t : ℚ) (d : ℤ), 0 < d →
      annualized_return t d =
        ((1 + (t : ℝ) / 100) ^ ((365 : ℝ) / (d : ℝ)) - 1) * 100) ∧
    annualized_return 0 365 = 0 ∧ annualized_return 100 365 = 100 := by
  refine ⟨?_, ?_, ?_, ?_⟩
  · intro t d hd
    rw [annualized_return, if_pos hd]
  · intro t d hd
    rw [annualized_return, if_neg (not_le.2 hd)]
  · rw [annualized_return, if_neg (by norm_num)]
    norm_num [Real.one_rpow]
  · rw [annualized_return, if_neg (by norm_num)]
    norm_num [Real.rpow_one]

/-- C7 witness: a non-positive day count returns `0`. -/
theorem C7_annualized_return_spec_witness : annualized_return 7 (-3) = 0 :=
  C7_annualized_return_spec.1 7 (-3) (by norm_num)

/-- C10: weight-map tickers are matched against columns
case-insensitively: uppercasing all keys of a weight map (injectively)
does not change the result of `portfolio_value_from_prices`. -/
theorem C10_case_insensitive (pt : PriceTable) (w : List (String × ℚ)) (I : ℚ)
    (_hdist : (w.map (fun p => pyUpper p.1)).Nodup) :
    portfolio_value_from_prices pt w I =
      portfolio_value_from_prices pt (w.map (fun p => (pyUpper p.1, p.2))) I := by
  rw [pvfp_eq, pvfp_eq, weightsAvailable_upper_keys]
  have hemp : (w.map (fun p => (pyUpper p.1, p.2))).isEmpty = w.isEmpty := by
    cases w <;> rfl
  rw [hemp]

/-- C10 witness: a lowercase key behaves exactly like its uppercase
form. -/
theorem C10_case_insensitive_witness :
    portfolio_value_from_prices ⟨1, [("SPY", [some 10])]⟩ [("spy", 1)] 10000 =
      portfolio_value_from_prices ⟨1, [("SPY", [some 10])]⟩
        ([("spy", (1 : ℚ))].map (fun p => (pyUpper p.1, p.2))) 10000 :=
  C10_case_insensitive ⟨1, [("SPY", [some 10])]⟩ [("spy", 1)] 10000 (by simp)

/-! ## Claim C1: value on gap days -/

theorem rowStep_none (pt : PriceTable) (i : ℕ) :
    ∀ (l : List (String × ℚ)),
      l.foldl (fun acc p =>
        match acc, priceAt pt p.1 i with
        | some a, some pr => some (a + pr * p.2)
        | _, _ => none) none = none := by
  intro l
  induction l with
  | nil => rfl
  | cons x xs ih => simpa using ih

theorem rowValue_eq_sum (pt : PriceTable) (shares : List (String × ℚ)) (i : ℕ)
    (h : ∀ p ∈ shares, (priceAt pt p.1 i).isSome) :
    rowValue pt shares i =
      some ((shares.map (fun p => (priceAt pt p.1 i).getD 0 * p.2)).sum) := by
  have key : ∀ (l : List (String × ℚ)) (a : ℚ),
      (∀ p ∈ l, (priceAt pt p.1 i).isSome) →
      l.foldl (fun acc p =>
        match acc, priceAt pt p.1 i with
        | some a, some pr => some (a + pr * p.2)
        | _, _ => none) (some a) =
      some (a + (l.map (fun p => (priceAt pt p.1 i).getD 0 * p.2)).sum) := by
    intro l
    induction l with
    | nil => intro a _; simp
    | cons x xs ih =>
      intro a hl
      have hx := hl x (List.mem_cons_self x xs)
      rcases Option.isSome_iff_exists.1 hx with ⟨pr, hpr⟩
      simp only [List.foldl_cons, hpr]
      rw [ih (a + pr * x.2) (fun p hp => hl p (List.mem_cons_of_mem x hp))]
      simp [hpr, add_assoc]
  simpa using key shares 0 h

theorem rowValue_none_of_gap (pt : PriceTable) (shares : List (String × ℚ)) (i : ℕ)
    (h : ∃ p ∈ shares, priceAt pt p.1 i = none) :
    rowValue pt shares i = none := by
  have key : ∀ (l : List (String × ℚ)) (a : ℚ),
      (∃ p ∈ l, priceAt pt p.1 i = none) →
      l.foldl (fun acc p =>
        match acc, priceAt pt p.1 i with
        | some a, some pr => some (a + pr * p.2)
        | _, _ => none) (some a) = none := by
    intro l
    induction l with
    | nil => intro a hex; simp at hex
    | cons x xs ih =>
      intro a hex
      rcases hex with ⟨p, hp, hnone⟩
      rcases List.mem_cons.1 hp with rfl | hmem
      · simp only [List.foldl_cons, hnone]
        exact rowStep_none pt i xs
      · cases hpr : priceAt pt x.1 i with
        | none =>
          simp only [List.foldl_cons, hpr]
          exact rowStep_none pt i xs
        | some pr =>
          simp only [List.foldl_cons, hpr]
          exact ih (a + pr * x.2) ⟨p, hmem, hnone⟩
  exact key shares 0 h

theorem pvfp_value_eq (pt : PriceTable) (w : List (String × ℚ)) (I : ℚ)
    (hne : (portfolio_value_from_prices pt w I).1 ≠ []) :
    (portfolio_value_from_prices pt w I).1 =
      valueSeriesOf pt (initialSharesOf pt (weightsAvailable pt w) I) := by
  rw [pvfp_eq] at hne ⊢
  split_ifs at hne ⊢ with h1 h2 h3
  · exact absurd rfl hne
  · exact absurd rfl hne
  · exact absurd rfl hne
  · rfl

/-- C1 (counterexample): two tickers, `B` with a NaN gap on the second
date; both survive the first-date filter (`A` at 50 shares, `B` at 25).
The value on the gap date is NaN (`none`), not the finite one-sided sum
`50 * 100 = 5000` the claim requires. -/
theorem C1_gap_counterexample :
    (portfolio_value_from_prices
        ⟨2, [("A", [some 100, some 100]), ("B", [some 200, none])]⟩
        [("A", 1/2), ("B", 1/2)] 10000).1 = [some 10000, none] ∧
      (none : Option ℚ) ≠ some 5000 := by
  constructor
  · have hwa : weightsAvailable ⟨2, [("A", [some 100, some 100]), ("B", [some 200, none])]⟩
        [("A", 1/2), ("B", 1/2)] = [("A", 1/2), ("B", 1/2)] := rfl
    have pA0 : priceAt ⟨2, [("A", [some 100, some 100]), ("B", [some 200, none])]⟩
        "A" 0 = some 100 := rfl
    have pB0 : priceAt ⟨2, [("A", [some 100, some 100]), ("B", [some 200, none])]⟩
        "B" 0 = some 200 := rfl
    have pA1 : priceAt ⟨2, [("A", [some 100, some 100]), ("B", [some 200, none])]⟩
        "A" 1 = some 100 := rfl
    have pB1 : priceAt ⟨2, [("A", [some 100, some 100]), ("B", [some 200, none])]⟩
        "B" 1 = none := rfl
    have hsh : initialSharesOf ⟨2, [("A", [some 100, some 100]), ("B", [some 200, none])]⟩
        [("A", (1:ℚ)/2), ("B", 1/2)] 10000 = [("A", 50), ("B", 25)] := by
      norm_num [initialSharesOf, normalizedOf, sumValues, List.filterMap_cons, pA0, pB0]
    have hv : valueSeriesOf ⟨2, [("A", [some 100, some 100]), ("B", [some 200, none])]⟩
        [("A", (50:ℚ)), ("B", 25)] = [some 10000, none] := by
      norm_num [valueSeriesOf, rowValue, List.range_succ, pA0, pB0, pA1, pB1]
    rw [pvfp_eq, hwa, hsh]
    rw [if_neg (by decide)]
    rw [if_neg (by norm_num [sumValues])]
    rw [if_neg (by decide)]
    exact hv
  · simp

/-- C1 (amended): at a date where every surviving ticker has a price, the
portfolio value equals the sum of `shares * price_at_date`; but at a date
where any surviving ticker's price is missing, the value is NaN
(missing), not the partial sum over the tickers that do have prices. -/
theorem C1_gap_value_amended (pt : PriceTable) (w : List (String × ℚ))
    (I : ℚ) (i : ℕ)
    (hne : (portfolio_value_from_prices pt w I).1 ≠ []) (hi : i < pt.nrows) :
    ((∀ p ∈ initialSharesOf pt (weightsAvailable pt w) I,
        (priceAt pt p.1 i).isSome) →
      (portfolio_value_from_prices pt w I).1[i]? =
        some (some (((initialSharesOf pt (weightsAvailable pt w) I).map
          (fun p => (priceAt pt p.1 i).getD 0 * p.2)).sum)))
    ∧ ((∃ p ∈ initialSharesOf pt (weightsAvailable pt w) I,
        priceAt pt p.1 i = none) →
      (portfolio_value_from_prices pt w I).1[i]? = some none) := by
  rw [pvfp_value_eq pt w I hne]
  have hv : (valueSeriesOf pt (initialSharesOf pt (weightsAvailable pt w) I))[i]? =
      some (rowValue pt (initialSharesOf pt (weightsAvailable pt w) I) i) := by
    rw [valueSeriesOf, List.getElem?_map, List.getElem?_range hi]
    rfl
  rw [hv]
  constructor
  · intro h
    rw [rowValue_eq_sum pt _ i h]
  · intro h
    rw [rowValue_none_of_gap pt _ i h]

/-- C1 witness: on the concrete gap table the amended theorem applies and
yields a NaN value on the gap date. -/
theorem C1_gap_value_amended_witness :
    (portfolio_value_from_prices
        ⟨2, [("A", [some 100, some 100]), ("B", [some 200, none])]⟩
        [("A", 1/2), ("B", 1/2)] 10000).1[1]? = some none := by
  have hwa : weightsAvailable ⟨2, [("A", [some 100, some 100]), ("B", [some 200, none])]⟩
      [("A", 1/2), ("B", 1/2)] = [("A", 1/2), ("B", 1/2)] := rfl
  have pA0 : priceAt ⟨2, [("A", [some 100, some 100]), ("B", [some 200, none])]⟩
      "A" 0 = some 100 := rfl
  have pB0 : priceAt ⟨2, [("A", [some 100, some 100]), ("B", [some 200, none])]⟩
      "B" 0 = some 200 := rfl
  have hsh : initialSharesOf ⟨2, [("A", [some 100, some 100]), ("B", [some 200, none])]⟩
      [("A", (1:ℚ)/2), ("B", 1/2)] 10000 = [("A", 50), ("B", 25)] := by
    norm_num [initialSharesOf, normalizedOf, sumValues, List.filterMap_cons, pA0, pB0]
  have hne : (portfolio_value_from_prices
      ⟨2, [("A", [some 100, some 100]), ("B", [some 200, none])]⟩
      [("A", 1/2), ("B", 1/2)] 10000).1 ≠ [] := by
    rw [pvfp_eq, hwa, hsh]
    rw [if_neg (by decide)]
    rw [if_neg (by norm_num [sumValues])]
    rw [if_neg (by decide)]
    simp [valueSeriesOf, List.range_succ]
  have h := C1_gap_value_amended
    ⟨2, [("A", [some 100, some 100]), ("B", [some 200, none])]⟩
    [("A", 1/2), ("B", 1/2)] 10000 1 hne (by norm_num)
  refine h.2 ⟨("B", 25), ?_, rfl⟩
  rw [hwa, hsh]
  simp

/-! ## Claim C5: first value of the series -/

theorem shares_foldl_first (pt : PriceTable) (I : ℚ) :
    ∀ (l : List (String × ℚ)) (a : ℚ),
      (l.filterMap (fun p =>
        match priceAt pt p.1 0 with
        | some fp => if 0 < fp then some (p.1, I * p.2 / fp) else none
        | none => none)).foldl (fun acc p =>
          match acc, priceAt pt p.1 0 with
          | some a, some pr => some (a + pr * p.2)
          | _, _ => none) (some a)
      = some (a + I * sumValues (l.filter (fun p =>
          match priceAt pt p.1 0 with
          | some fp => decide (0 < fp)
          | none => false))) := by
  intro l
  induction l with
  | nil => intro a; simp [sumValues]
  | cons x xs ih =>
    intro a
    cases hfp : priceAt pt x.1 0 with
    | none =>
      simp only [List.filterMap_cons, List.filter_cons, hfp]
      rw [ih]
      simp
    | some fp =>
      by_cases hpos : 0 < fp
      · simp only [List.filterMap_cons, List.filter_cons, hfp, if_pos hpos,
          decide_eq_true_eq, hpos, if_true]
        simp only [List.foldl_cons, hfp]
        rw [ih (a + fp * (I * x.2 / fp))]
        have hfp0 : fp ≠ 0 := ne_of_gt hpos
        have hcan : fp * (I * x.2 / fp) = I * x.2 := by
          field_simp
        rw [hcan]
        simp only [sumValues, List.map_cons, List.sum_cons]
        congr 1
        · ring
      · simp only [List.filterMap_cons, List.filter_cons, hfp, if_neg hpos,
          decide_eq_true_eq, hpos, if_false]
        rw [ih]

theorem pvfp_nrows_pos (pt : PriceTable) (w : List (String × ℚ)) (I : ℚ)
    (hne : (portfolio_value_from_prices pt w I).1 ≠ []) : 0 < pt.nrows := by
  by_contra h
  have hz : pt.nrows = 0 := by omega
  rw [pvfp_value_eq pt w I hne] at hne
  simp [valueSeriesOf, hz] at hne

/-- C5 (counterexample): ticker `B` has first-date price `0` and is
excluded; the series is non-empty but starts at `5000`, not at the initial
investment `10000`. -/
theorem C5_first_value_counterexample :
    (portfolio_value_from_prices
        ⟨2, [("A", [some 100, some 100]), ("B", [some 0, some 200])]⟩
        [("A", 1/2), ("B", 1/2)] 10000).1 = [some 5000, some 5000] ∧
      some (some (5000 : ℚ)) ≠ some (some (10000 : ℚ)) := by
  constructor
  · have hwa : weightsAvailable ⟨2, [("A", [some 100, some 100]), ("B", [some 0, some 200])]⟩
        [("A", 1/2), ("B", 1/2)] = [("A", 1/2), ("B", 1/2)] := rfl
    have pA0 : priceAt ⟨2, [("A", [some 100, some 100]), ("B", [some 0, some 200])]⟩
        "A" 0 = some 100 := rfl
    have pB0 : priceAt ⟨2, [("A", [some 100, some 100]), ("B", [some 0, some 200])]⟩
        "B" 0 = some 0 := rfl
    have pA1 : priceAt ⟨2, [("A", [some 100, some 100]), ("B", [some 0, some 200])]⟩
        "A" 1 = some 100 := rfl
    have hsh : initialSharesOf ⟨2, [("A", [some 100, some 100]), ("B", [some 0, some 200])]⟩
        [("A", (1:ℚ)/2), ("B", 1/2)] 10000 = [("A", 50)] := by
      norm_num [initialSharesOf, normalizedOf, sumValues, List.filterMap_cons, pA0, pB0]
    have hv : valueSeriesOf ⟨2, [("A", [some 100, some 100]), ("B", [some 0, some 200])]⟩
        [("A", (50:ℚ))] = [some 5000, some 5000] := by
      norm_num [valueSeriesOf, rowValue, List.range_succ, pA0, pA1]
    rw [pvfp_eq, hwa, hsh]
    rw [if_neg (by decide)]
    rw [if_neg (by norm_num [sumValues])]
    rw [if_neg (by decide)]
    exact hv
  · norm_num

/-- C5 (amended): a non-empty value series starts at `initial_investment *
(sum of the normalized weights of the tickers surviving the first-date
filter)`; this equals the initial investment exactly when every
weight-overlapping ticker has a positive first-date price (and the
overlapping weights have positive sum), but is smaller whenever a weighted
ticker was excluded for a missing or non-positive first-date price. -/
theorem C5_first_value_amended (pt : PriceTable) (w : List (String × ℚ)) (I : ℚ)
    (hne : (portfolio_value_from_prices pt w I).1 ≠ []) :
    (portfolio_value_from_prices pt w I).1[0]? =
      some (some (I * sumValues (survivedNormWeights pt (weightsAvailable pt w))))
    ∧ ((∀ p ∈ normalizedOf (weightsAvailable pt w),
          ∃ fp, priceAt pt p.1 0 = some fp ∧ 0 < fp) →
        0 < sumValues (weightsAvailable pt w) →
        (portfolio_value_from_prices pt w I).1[0]? = some (some I)) := by
  have h0 : 0 < pt.nrows := pvfp_nrows_pos pt w I hne
  have hval : (portfolio_value_from_prices pt w I).1[0]? =
      some (rowValue pt (initialSharesOf pt (weightsAvailable pt w) I) 0) := by
    rw [pvfp_value_eq pt w I hne, valueSeriesOf, List.getElem?_map,
      List.getElem?_range h0]
    rfl
  have hrow : rowValue pt (initialSharesOf pt (weightsAvailable pt w) I) 0 =
      some (I * sumValues (survivedNormWeights pt (weightsAvailable pt w))) := by
    rw [rowValue, initialSharesOf, shares_foldl_first pt I (normalizedOf (weightsAvailable pt w)) 0]
    rw [survivedNormWeights]
    ring_nf
  constructor
  · rw [hval, hrow]
  · intro hall hpos
    have hfil : (normalizedOf (weightsAvailable pt w)).filter (fun p =>
        match priceAt pt p.1 0 with
        | some fp => decide (0 < fp)
        | none => false) = normalizedOf (weightsAvailable pt w) := by
      rw [List.filter_eq_self]
      intro p hp
      rcases hall p hp with ⟨fp, hfp, hfppos⟩
      rw [hfp]
      simpa using hfppos
    rw [hval, hrow, survivedNormWeights, hfil, sumValues_normalizedOf,
      div_self (ne_of_gt hpos), mul_one]

/-- C5 witness: on the concrete table with an excluded zero-price ticker,
the amended theorem applies and the series starts at `10000 * (1/2) =
5000`. -/
theorem C5_first_value_amended_witness :
    (portfolio_value_from_prices
        ⟨2, [("A", [some 100, some 100]), ("B", [some 0, some 200])]⟩
        [("A", 1/2), ("B", 1/2)] 10000).1[0]? = some (some 5000) := by
  have hwa : weightsAvailable ⟨2, [("A", [some 100, some 100]), ("B", [some 0, some 200])]⟩
      [("A", 1/2), ("B", 1/2)] = [("A", 1/2), ("B", 1/2)] := rfl
  have pA0 : priceAt ⟨2, [("A", [some 100, some 100]), ("B", [some 0, some 200])]⟩
      "A" 0 = some 100 := rfl
  have pB0 : priceAt ⟨2, [("A", [some 100, some 100]), ("B", [some 0, some 200])]⟩
      "B" 0 = some 0 := rfl
  have hsh : initialSharesOf ⟨2, [("A", [some 100, some 100]), ("B", [some 0, some 200])]⟩
      [("A", (1:ℚ)/2), ("B", 1/2)] 10000 = [("A", 50)] := by
    norm_num [initialSharesOf, normalizedOf, sumValues, List.filterMap_cons, pA0, pB0]
  have hne : (portfolio_value_from_prices
      ⟨2, [("A", [some 100, some 100]), ("B", [some 0, some 200])]⟩
      [("A", 1/2), ("B", 1/2)] 10000).1 ≠ [] := by
    rw [pvfp_eq, hwa, hsh]
    rw [if_neg (by decide)]
    rw [if_neg (by norm_num [sumValues])]
    rw [if_neg (by decide)]
    simp [valueSeriesOf, List.range_succ]
  have h := (C5_first_value_amended
    ⟨2, [("A", [some 100, some 100]), ("B", [some 0, some 200])]⟩
    [("A", 1/2), ("B", 1/2)] 10000 hne).1
  rw [h, hwa]
  norm_num [survivedNormWeights, normalizedOf, sumValues, List.filter_cons, pA0, pB0]

/-! ## Claim C4: constant return series -/

theorem cumprodAux_length (a : ℚ) (l : List ℚ) :
    (cumprodAux a l).length = l.length := by
  induction l generalizing a with
  | nil => rfl
  | cons r rs ih => simp [cumprodAux, ih]

theorem cummaxAux_of_chain :
    ∀ (l : List ℚ) (m : ℚ), List.Chain (· ≤ ·) m l → cummaxAux m l = l := by
  intro l
  induction l with
  | nil => intro m _; rfl
  | cons x xs ih =>
    intro m hch
    rcases List.chain_cons.1 hch with ⟨hmx, hxs⟩
    simp only [cummaxAux, max_eq_right hmx]
    rw [ih x hxs]

theorem cummax_of_chain (l : List ℚ) (a : ℚ) (h : List.Chain (· ≤ ·) a l) :
    cummax l = l := by
  cases l with
  | nil => rfl
  | cons x xs =>
    rcases List.chain_cons.1 h with ⟨_, hxs⟩
    simp only [cummax]
    rw [cummaxAux_of_chain xs x hxs]

theorem cum_replicate_facts (c : ℚ) (hc : 0 ≤ c) :
    ∀ (n : ℕ) (a : ℚ), 0 < a →
      List.Chain (· ≤ ·) a (cumprodAux a (List.replicate n c)) ∧
      ∀ x ∈ cumprodAux a (List.replicate n c), 0 < x := by
  intro n
  induction n with
  | zero => intro a _; exact ⟨List.Chain.nil, by simp [cumprodAux]⟩
  | succ n ih =>
    intro a ha
    have ha' : 0 < a * (1 + c) := mul_pos ha (by linarith)
    have hle : a ≤ a * (1 + c) := le_mul_of_one_le_right ha.le (by linarith)
    rcases ih (a * (1 + c)) ha' with ⟨hch, hpos⟩
    refine ⟨?_, ?_⟩
    · simp only [List.replicate_succ, cumprodAux]
      exact List.Chain.cons hle hch
    · intro x hx
      simp only [List.replicate_succ, cumprodAux, List.mem_cons] at hx
      rcases hx with rfl | hx
      · exact ha'
      · exact hpos x hx

theorem zipWith_dd_self (l : List ℚ) (h : ∀ x ∈ l, 0 < x) :
    List.zipWith (fun c m => if m = 0 then none else some (c / m - 1)) l l =
      List.replicate l.length (some 0) := by
  induction l with
  | nil => rfl
  | cons x xs ih =>
    have hx : 0 < x := h x (List.mem_cons_self x xs)
    simp only [List.zipWith_cons_cons, List.length_cons, List.replicate_succ]
    rw [if_neg (ne_of_gt hx), div_self (ne_of_gt hx)]
    rw [ih (fun y hy => h y (List.mem_cons_of_mem x hy))]
    norm_num

theorem ddTerms_replicate_nonneg (c : ℚ) (hc : 0 ≤ c) (n : ℕ) :
    ddTerms (List.replicate n c) = List.replicate n (some 0) := by
  rcases cum_replicate_facts c hc n 1 one_pos with ⟨hch, hpos⟩
  rw [ddTerms, cumWealth, cummax_of_chain _ 1 hch, zipWith_dd_self _ hpos,
    cumprodAux_length, List.length_replicate]

theorem listMin_replicate (n : ℕ) (x : ℚ) :
    listMin (List.replicate (n + 1) x) = some x := by
  induction n with
  | zero => rfl
  | succ n ih =>
    rw [List.replicate_succ, listMin, ih]
    simp

theorem seriesMean_replicate (n : ℕ) (c : ℚ) (h : n ≠ 0) :
    seriesMean (List.replicate n c) = c := by
  have : ((n : ℚ)) ≠ 0 := Nat.cast_ne_zero.2 h
  simp [seriesMean, List.sum_replicate, nsmul_eq_mul]
  field_simp

theorem seriesStd_replicate (n : ℕ) (c : ℚ) (h : 2 ≤ n) :
    seriesStd (List.replicate n c) = some 0 := by
  rw [seriesStd, if_neg (by simp; omega)]
  congr 1
  rw [seriesMean_replicate n c (by omega)]
  simp [List.map_replicate, List.sum_replicate, Real.sqrt_eq_zero']

theorem filterMap_id_replicate_some (n : ℕ) (x : ℚ) :
    (List.replicate n (some x)).filterMap id = List.replicate n x := by
  induction n with
  | zero => rfl
  | succ n ih => simp [List.replicate_succ, ih]

theorem sharpeVal_replicate (n : ℕ) (c : ℚ) (rf : ℚ) :
    sharpeVal (List.replicate n c) rf = 0 := by
  rcases Nat.lt_or_ge n 2 with h | h
  · have hlen : (List.replicate n c).length < 2 := by simpa using h
    rw [sharpeVal, seriesStd, if_pos hlen]
  · rw [sharpeVal, seriesStd_replicate n c h]
    simp

theorem sortinoVal_replicate (n : ℕ) (c : ℚ) (rf : ℚ) :
    sortinoVal (List.replicate n c) rf = 0 := by
  by_cases hc : c < 0
  · have hdl : downsideList (List.replicate n c) = List.replicate n c := by
      simp [downsideList, List.filter_replicate, hc]
    rcases n with _ | n
    · rw [sortinoVal, downsideDev, hdl]
      simp
    · rcases n with _ | m
      · rw [sortinoVal, downsideDev, hdl, seriesStd]
        simp
      · rw [sortinoVal, downsideDev, hdl, seriesStd_replicate (m + 2) c (by omega)]
        simp
  · have hdl : downsideList (List.replicate n c) = [] := by
      simp [downsideList, List.filter_replicate, hc]
    rw [sortinoVal, downsideDev, hdl]
    simp

theorem maxDdVal_replicate_nonneg (n : ℕ) (c : ℚ) (hn : n ≠ 0) (hc : 0 ≤ c) :
    maxDdVal (List.replicate n c) = some 0 := by
  rw [maxDdVal, drawdownMin, ddTerms_replicate_nonneg c hc n]
  rcases Nat.exists_eq_succ_of_ne_zero hn with ⟨m, rfl⟩
  rw [if_neg (by simp), pandasMin, filterMap_id_replicate_some, listMin_replicate]

/-- C4 (counterexample): the constant series `[-1/2, -1/2]` (zero
variance) has cumulative wealth `[1/2, 1/4]` and running maximum
`[1/2, 1/2]`, so its max drawdown is `-1/2`, not `0`. -/
theorem C4_constant_counterexample :
    (risk_metrics (List.replicate 2 (-(1:ℚ)/2)) (3/100)).lookup "max_drawdown"
      ≠ some (some 0) := by
  have hdd : maxDdVal [-(1:ℚ)/2, -(1:ℚ)/2] = some (-(1:ℚ)/2) := by
    have hcum : cumWealth [-(1:ℚ)/2, -(1:ℚ)/2] = [1/2, 1/4] := by
      norm_num [cumWealth, cumprodAux]
    have hmax : cummax [(1:ℚ)/2, 1/4] = [1/2, 1/2] := by
      norm_num [cummax, cummaxAux, max_def]
    have hterms : ddTerms [-(1:ℚ)/2, -(1:ℚ)/2] = [some 0, some (-(1:ℚ)/2)] := by
      rw [ddTerms, hcum, hmax]
      norm_num [List.zipWith]
    rw [maxDdVal, if_neg (by rw [hterms]; simp), drawdownMin, hterms]
    norm_num [pandasMin, listMin, min_def]
  rw [risk_metrics, if_neg (by simp)]
  simp only [List.replicate, List.lookup, show (("max_drawdown" == "sharpe_ratio") = false) from rfl,
    show (("max_drawdown" == "sortino_ratio") = false) from rfl,
    show (("max_drawdown" == "volatility_annual") = false) from rfl,
    show (("max_drawdown" == "max_drawdown") = true) from rfl]
  rw [hdd]
  simp
/-- C4 (amended): every non-empty constant return series yields
`sharpe_ratio = 0` and `sortino_ratio = 0`; `max_drawdown = 0` holds when
the constant is non-negative (a constant in `(-1, 0)` with at least two
points instead yields a strictly negative max drawdown). -/
theorem C4_constant_amended (c : ℚ) (n : ℕ) (rf : ℚ) (hn : n ≠ 0) :
    (risk_metrics (List.replicate n c) rf).lookup "sharpe_ratio" = some (some 0) ∧
    (risk_metrics (List.replicate n c) rf).lookup "sortino_ratio" = some (some 0) ∧
    (0 ≤ c →
      (risk_metrics (List.replicate n c) rf).lookup "max_drawdown" = some (some 0)) := by
  have hne : ¬ (List.replicate n c).isEmpty = true := by
    simpa using hn
  rw [risk_metrics, if_neg hne]
  refine ⟨?_, ?_, ?_⟩
  · simp [List.lookup, sharpeVal_replicate n c rf]
  · simp [List.lookup, sortinoVal_replicate n c rf]
  · intro hc
    simp [List.lookup, maxDdVal_replicate_nonneg n c hn hc]

/-- C4 witness: the constant series `[1/2, 1/2, 1/2]` has zero max
drawdown. -/
theorem C4_constant_amended_witness :
    (risk_metrics (List.replicate 3 ((1:ℚ)/2)) (3/100)).lookup "max_drawdown"
      = some (some 0) :=
  (C4_constant_amended (1/2) 3 (3/100) (by norm_num)).2.2 (by norm_num)

/-! ## Claim C3: shape and definedness of the risk-metric record -/

theorem pandasMin_cons_some (v : ℚ) (l : List (Option ℚ)) :
    ∃ m, pandasMin (some v :: l) = some m := by
  rw [pandasMin]
  simp only [List.filterMap_cons, id]
  cases h : listMin (l.filterMap id) with
  | none => exact ⟨v, by rw [listMin, h]⟩
  | some m => exact ⟨min v m, by rw [listMin, h]⟩

theorem ddTerms_cons (r : ℚ) (rest : List ℚ) :
    ddTerms (r :: rest) =
      (if (1 * (1 + r) : ℚ) = 0 then none
       else some ((1 * (1 + r)) / (1 * (1 + r)) - 1)) ::
        List.zipWith (fun c m => if m = 0 then none else some (c / m - 1))
          (cumprodAux (1 * (1 + r)) rest)
          (cummaxAux (1 * (1 + r)) (cumprodAux (1 * (1 + r)) rest)) := rfl

theorem maxDdVal_isSome_of_head_ne (r : ℚ) (rest : List ℚ) (hr : r ≠ -1) :
    ∃ q, maxDdVal (r :: rest) = some q := by
  have h1 : (1 : ℚ) * (1 + r) ≠ 0 := by
    intro h
    apply hr
    have : (1 : ℚ) + r = 0 := by linarith [h, one_mul ((1 : ℚ) + r)]
    linarith
  have hterms := ddTerms_cons r rest
  rw [if_neg h1] at hterms
  rw [maxDdVal, if_neg (by rw [hterms]; simp), drawdownMin, hterms]
  exact pandasMin_cons_some _ _

/-- C3 (counterexample): the record returned by `risk_metrics` has no key
`annualized_volatility` — the volatility key is `volatility_annual` — and
on the one-point return series `[5]` the `volatility_annual` field is NaN (pandas
`std` with `ddof=1` of a single point), not a defined float. -/
theorem C3_record_counterexample :
    (risk_metrics [] (3/100)).lookup "annualized_volatility" = none ∧
    (risk_metrics [(5:ℚ)] (3/100)).lookup "volatility_annual" = some none := by
  constructor
  · rw [risk_metrics, if_pos (by simp)]
    simp [List.lookup]
  · rw [risk_metrics, if_neg (by simp)]
    have hv : volAnn [(5:ℚ)] = none := by
      rw [volAnn, seriesStd, if_pos (by simp)]
      rfl
    simp [List.lookup, hv]

/-- C3 (amended): on the empty series `risk_metrics` returns the all-zero
record with keys `sharpe_ratio`, `sortino_ratio`, `volatility_annual`
(not `annualized_volatility`), `max_drawdown`; it never raises (the model
is total); the Sharpe division is taken only when the standard deviation
is defined and positive, and the Sortino division only when the downside
deviation is defined and positive, so `sharpe_ratio` and `sortino_ratio`
are always defined floats; `volatility_annual` is defined unless the
series has exactly one point (where it is NaN), and `max_drawdown` is
defined whenever the first return is not exactly `-1`. -/
theorem C3_record_amended (rf : ℚ) :
    (risk_metrics [] rf =
      [("sharpe_ratio", some 0), ("sortino_ratio", some 0),
       ("volatility_annual", some 0), ("max_drawdown", some 0)]) ∧
    (∀ rs : List ℚ, rs ≠ [] → ¬ (∃ s, seriesStd rs = some s ∧ 0 < s) →
      (risk_metrics rs rf).lookup "sharpe_ratio" = some (some 0)) ∧
    (∀ rs : List ℚ, rs ≠ [] → ¬ (∃ d, downsideDev rs = some d ∧ 0 < d) →
      (risk_metrics rs rf).lookup "sortino_ratio" = some (some 0)) ∧
    (∀ rs : List ℚ, ∃ x : ℝ,
      (risk_metrics rs rf).lookup "sharpe_ratio" = some (some x)) ∧
    (∀ rs : List ℚ, ∃ x : ℝ,
      (risk_metrics rs rf).lookup "sortino_ratio" = some (some x)) ∧
    (∀ rs : List ℚ, rs.length ≠ 1 → ∃ x : ℝ,
      (risk_metrics rs rf).lookup "volatility_annual" = some (some x)) ∧
    (∀ rs : List ℚ, rs.head? ≠ some (-1) → ∃ x : ℝ,
      (risk_metrics rs rf).lookup "max_drawdown" = some (some x)) := by
  refine ⟨?_, ?_, ?_, ?_, ?_, ?_, ?_⟩
  · rw [risk_metrics, if_pos (by simp)]
  · intro rs hrs hnot
    rw [risk_metrics, if_neg (by simpa using hrs)]
    have hs : sharpeVal rs rf = 0 := by
      rw [sharpeVal]
      cases h : seriesStd rs with
      | none => rfl
      | some s =>
        show (if 0 < s then (excessMean rs rf : ℝ) / s * Real.sqrt 252 else 0) = 0
        rw [if_neg (fun hpos => hnot ⟨s, h, hpos⟩)]
    simp [List.lookup, hs]
  · intro rs hrs hnot
    rw [risk_metrics, if_neg (by simpa using hrs)]
    have hs : sortinoVal rs rf = 0 := by
      rw [sortinoVal]
      cases h : downsideDev rs with
      | none => rfl
      | some d =>
        show (if 0 < d then (excessMean rs rf : ℝ) / d * Real.sqrt 252 else 0) = 0
        rw [if_neg (fun hpos => hnot ⟨d, h, hpos⟩)]
    simp [List.lookup, hs]
  · intro rs
    by_cases hrs : rs = []
    · subst hrs
      exact ⟨0, by rw [risk_metrics, if_pos (by simp)]; simp [List.lookup]⟩
    · refine ⟨sharpeVal rs rf, ?_⟩
      rw [risk_metrics, if_neg (by simpa using hrs)]
      simp [List.lookup]
  · intro rs
    by_cases hrs : rs = []
    · subst hrs
      exact ⟨0, by rw [risk_metrics, if_pos (by simp)]; simp [List.lookup]⟩
    · refine ⟨sortinoVal rs rf, ?_⟩
      rw [risk_metrics, if_neg (by simpa using hrs)]
      simp [List.lookup]
  · intro rs hlen
    rcases rs with _ | ⟨r, rest⟩
    · exact ⟨0, by rw [risk_metrics, if_pos (by simp)]; simp [List.lookup]⟩
    · have hlen2 : 2 ≤ (r :: rest).length := by
        rcases rest with _ | ⟨r2, rest2⟩
        · simp at hlen
        · simp only [List.length_cons]
          omega
      refine ⟨Real.sqrt (((((r :: rest).map
          (fun x => (x - seriesMean (r :: rest)) ^ 2)).sum /
            ((r :: rest).length - 1 : ℚ) : ℚ))) * Real.sqrt 252, ?_⟩
      rw [risk_metrics, if_neg (by simp)]
      have hv : volAnn (r :: rest) =
          some (Real.sqrt (((((r :: rest).map
            (fun x => (x - seriesMean (r :: rest)) ^ 2)).sum /
              ((r :: rest).length - 1 : ℚ) : ℚ))) * Real.sqrt 252) := by
        rw [volAnn, seriesStd, if_neg (by omega)]
        rfl
      simp [List.lookup, hv]
  · intro rs hhead
    rcases rs with _ | ⟨r, rest⟩
    · exact ⟨0, by rw [risk_metrics, if_pos (by simp)]; simp [List.lookup]⟩
    · have hr : r ≠ -1 := by
        intro h
        exact hhead (by simp [h])
      rcases maxDdVal_isSome_of_head_ne r rest hr with ⟨q, hq⟩
      refine ⟨(q : ℝ), ?_⟩
      rw [risk_metrics, if_neg (by simp)]
      simp [List.lookup, hq]

/-- C3 witness: on the one-point series `[5]` the standard deviation is
NaN, so the Sharpe guard falls back to `0`. -/
theorem C3_record_amended_witness :
    (risk_metrics [(5:ℚ)] (3/100)).lookup "sharpe_ratio" = some (some 0) :=
  (C3_record_amended (3/100)).2.1 [5] (by simp) (by
    rintro ⟨s, hs, _⟩
    rw [seriesStd, if_pos (by simp)] at hs
    exact Option.noConfusion hs)

/-! ## Claim C8: the optimizer material -/

theorem mem_cummaxAux : ∀ (l : List ℚ) (m x : ℚ), x ∈ cummaxAux m l → x = m ∨ x ∈ l := by
  intro l
  induction l with
  | nil => intro m x hx; simp [cummaxAux] at hx
  | cons y ys ih =>
    intro m x hx
    simp only [cummaxAux, List.mem_cons] at hx
    rcases hx with rfl | hx
    · rcases max_choice m y with h | h
      · exact Or.inl h
      · right
        rw [h]
        exact List.mem_cons_self y ys
    · rcases ih (max m y) x hx with h | h
      · rcases max_choice m y with hm | hm
        · exact Or.inl (h.trans hm)
        · right
          rw [h, hm]
          exact List.mem_cons_self y ys
      · exact Or.inr (List.mem_cons_of_mem y h)

theorem mem_cummax (l : List ℚ) (x : ℚ) (hx : x ∈ cummax l) : x ∈ l := by
  cases l with
  | nil => simp [cummax] at hx
  | cons y ys =>
    simp only [cummax, List.mem_cons] at hx
    rcases hx with rfl | hx
    · exact List.mem_cons_self x ys
    · rcases mem_cummaxAux ys y x hx with rfl | h
      · exact List.mem_cons_self x ys
      · exact List.mem_cons_of_mem y h

theorem cumprodAux_ne_zero (rs : List ℚ) (h : ∀ x ∈ rs, x ≠ -1) :
    ∀ (a : ℚ), a ≠ 0 → ∀ c ∈ cumprodAux a rs, c ≠ 0 := by
  induction rs with
  | nil => intro a _ c hc; simp [cumprodAux] at hc
  | cons r rest ih =>
    intro a ha c hc
    have hr : (1 : ℚ) + r ≠ 0 := by
      have := h r (List.mem_cons_self r rest)
      intro hzero
      exact this (by linarith)
    have ha' : a * (1 + r) ≠ 0 := mul_ne_zero ha hr
    simp only [cumprodAux, List.mem_cons] at hc
    rcases hc with rfl | hc
    · exact ha'
    · exact ih (fun x hx => h x (List.mem_cons_of_mem r hx)) (a * (1 + r)) ha' c hc

theorem zipWith_guard_of_ne_zero (F : ℚ → ℚ → ℚ) :
    ∀ (l1 l2 : List ℚ), (∀ m ∈ l2, m ≠ 0) →
      List.zipWith (fun c m => if m = 0 then none else some (F c m)) l1 l2 =
        (List.zipWith F l1 l2).map some := by
  intro l1
  induction l1 with
  | nil => intro l2 _; simp
  | cons x xs ih =>
    intro l2 h2
    cases l2 with
    | nil => simp
    | cons y ys =>
      have hy : y ≠ 0 := h2 y (List.mem_cons_self y ys)
      simp only [List.zipWith_cons_cons, List.map_cons, if_neg hy]
      rw [ih ys (fun m hm => h2 m (List.mem_cons_of_mem y hm))]

theorem zipWith_one_sub_eq_neg (l1 l2 : List ℚ) :
    List.zipWith (fun c m => 1 - c / m) l1 l2 =
      (List.zipWith (fun c m => c / m - 1) l1 l2).map (fun v => -v) := by
  induction l1 generalizing l2 with
  | nil => simp
  | cons x xs ih =>
    cases l2 with
    | nil => simp
    | cons y ys =>
      simp only [List.zipWith_cons_cons, List.map_cons]
      rw [show (1 - x / y) = -(x / y - 1) by ring, ih ys]

theorem listMax_map_neg (l : List ℚ) :
    listMax (l.map (fun v => -v)) = (listMin l).map (fun v => -v) := by
  induction l with
  | nil => rfl
  | cons x xs ih =>
    simp only [List.map_cons, listMax, listMin, ih]
    cases h : listMin xs with
    | none => simp
    | some m => simp [max_neg_neg]

theorem npMax_map_some (l : List ℚ) : npMax (l.map some) = listMax l := by
  rw [npMax, if_neg (by simp)]
  simp

theorem pandasMin_map_some (l : List ℚ) : pandasMin (l.map some) = listMin l := by
  rw [pandasMin]
  simp

theorem listMin_eq_none (l : List ℚ) (h : listMin l = none) : l = [] := by
  cases l with
  | nil => rfl
  | cons a as =>
    rw [listMin] at h
    cases h2 : listMin as <;> rw [h2] at h <;> simp at h

theorem listMin_le_mem : ∀ (l : List ℚ) (m x : ℚ), listMin l = some m → x ∈ l → m ≤ x := by
  intro l
  induction l with
  | nil => intro m x _ hx; simp at hx
  | cons y ys ih =>
    intro m x hm hx
    rw [listMin] at hm
    cases h : listMin ys with
    | none =>
      rw [h] at hm
      simp only [Option.some.injEq] at hm
      have hys := listMin_eq_none ys h
      subst hys
      simp only [List.mem_cons, List.not_mem_nil, or_false] at hx
      rw [← hm, hx]
    | some m' =>
      rw [h] at hm
      simp only [Option.some.injEq] at hm
      rcases List.mem_cons.1 hx with rfl | hx2
      · rw [← hm]
        exact min_le_left x m'
      · rw [← hm]
        exact le_trans (min_le_right y m') (ih m' x h hx2)

theorem listMin_cons_isSome (x : ℚ) (xs : List ℚ) :
    ∃ m, listMin (x :: xs) = some m := by
  rw [listMin]
  cases listMin xs with
  | none => exact ⟨x, rfl⟩
  | some m => exact ⟨min x m, rfl⟩

/-- C8 (counterexample): for the sample return sequence `[1/10, -1/2]` the
optimizer's per-sample max drawdown is `+50` (a positive percentage), not
a negative number or `0`: controller.py line 179 computes
`np.max(1 - cum/running_max) * 100`, the negation (in percent) of the
`risk_metrics` drawdown. -/
theorem C8_optimizer_dd_counterexample :
    optMaxDrawdown [(1:ℚ)/10, -(1:ℚ)/2] = some 50 ∧ ¬ ((50:ℚ) ≤ 0) := by
  constructor
  · have hcum : cumWealth [(1:ℚ)/10, -(1:ℚ)/2] = [11/10, 11/20] := by
      norm_num [cumWealth, cumprodAux]
    have hmax : cummax [(11:ℚ)/10, 11/20] = [11/10, 11/10] := by
      norm_num [cummax, cummaxAux, max_def]
    have hterms : optDrawdownTerms [(1:ℚ)/10, -(1:ℚ)/2] = [some 0, some (1/2)] := by
      rw [optDrawdownTerms, hcum, hmax]
      norm_num [List.zipWith]
    rw [optMaxDrawdown, hterms]
    norm_num [npMax, listMax, max_def]
  · norm_num

/-- C8 (amended): per sample, the optimizer computes max drawdown as
`np.max(1 - cum/running_max) * 100`: the negation, in percent, of the
`risk_metrics` cumulative-wealth/running-max drawdown minimum of §4.3.
Whenever no return is exactly `-1` it is a defined value and is `≥ 0` (a
non-negative percentage), not `≤ 0`. -/
theorem C8_optimizer_dd_amended (rs : List ℚ) (hne : rs ≠ [])
    (h : ∀ x ∈ rs, x ≠ -1) :
    optMaxDrawdown rs = (drawdownMin rs).map (fun m => -m * 100) ∧
    ∃ v, optMaxDrawdown rs = some v ∧ 0 ≤ v := by
  have hcne : ∀ c ∈ cumWealth rs, c ≠ 0 := by
    intro c hc
    exact cumprodAux_ne_zero rs h 1 one_ne_zero c hc
  have hmne : ∀ m ∈ cummax (cumWealth rs), m ≠ 0 :=
    fun m hm => hcne m (mem_cummax _ m hm)
  have hopt : optDrawdownTerms rs =
      (List.zipWith (fun c m => 1 - c / m) (cumWealth rs)
        (cummax (cumWealth rs))).map some :=
    zipWith_guard_of_ne_zero _ _ _ hmne
  have hdd : ddTerms rs =
      (List.zipWith (fun c m => c / m - 1) (cumWealth rs)
        (cummax (cumWealth rs))).map some :=
    zipWith_guard_of_ne_zero _ _ _ hmne
  have hrel : optMaxDrawdown rs =
      (listMin (List.zipWith (fun c m => c / m - 1) (cumWealth rs)
        (cummax (cumWealth rs)))).map (fun m => -m * 100) := by
    rw [optMaxDrawdown, hopt, zipWith_one_sub_eq_neg, npMax_map_some, listMax_map_neg]
    cases listMin (List.zipWith (fun c m => c / m - 1) (cumWealth rs)
      (cummax (cumWealth rs))) <;> rfl
  have hdm : drawdownMin rs =
      listMin (List.zipWith (fun c m => c / m - 1) (cumWealth rs)
        (cummax (cumWealth rs))) := by
    rw [drawdownMin, hdd, pandasMin_map_some]
  refine ⟨by rw [hrel, hdm], ?_⟩
  rcases rs with _ | ⟨r, rest⟩
  · exact absurd rfl hne
  have hq : List.zipWith (fun c m => c / m - 1) (cumWealth (r :: rest))
      (cummax (cumWealth (r :: rest))) =
      ((1 * (1 + r)) / (1 * (1 + r)) - 1) ::
        List.zipWith (fun c m => c / m - 1) (cumprodAux (1 * (1 + r)) rest)
          (cummaxAux (1 * (1 + r)) (cumprodAux (1 * (1 + r)) rest)) := rfl
  have hc0 : (1 : ℚ) * (1 + r) ≠ 0 := by
    apply hcne
    show (1 : ℚ) * (1 + r) ∈ cumWealth (r :: rest)
    rw [cumWealth, cumprodAux]
    exact List.mem_cons_self _ _
  have hhead : ((1 : ℚ) * (1 + r)) / (1 * (1 + r)) - 1 = 0 := by
    rw [div_self hc0]
    ring
  rcases listMin_cons_isSome (((1 : ℚ) * (1 + r)) / (1 * (1 + r)) - 1)
      (List.zipWith (fun c m => c / m - 1) (cumprodAux (1 * (1 + r)) rest)
        (cummaxAux (1 * (1 + r)) (cumprodAux (1 * (1 + r)) rest))) with ⟨m, hm⟩
  have hm' : listMin (List.zipWith (fun c m => c / m - 1) (cumWealth (r :: rest))
      (cummax (cumWealth (r :: rest)))) = some m := by
    rw [hq, hm]
  have hmle : m ≤ 0 := by
    have hmem : (((1 : ℚ) * (1 + r)) / (1 * (1 + r)) - 1) ∈
        List.zipWith (fun c m => c / m - 1) (cumWealth (r :: rest))
          (cummax (cumWealth (r :: rest))) := by
      rw [hq]
      exact List.mem_cons_self _ _
    have := listMin_le_mem _ m _ hm' hmem
    rw [hhead] at this
    exact this
  refine ⟨-m * 100, ?_, by linarith⟩
  rw [hrel, hm']
  rfl

/-- C8 witness: on the sample `[1/10, -1/2]` the relation to the §4.3
drawdown minimum holds concretely. -/
theorem C8_optimizer_dd_amended_witness :
    optMaxDrawdown [(1:ℚ)/10, -(1:ℚ)/2] =
      (drawdownMin [(1:ℚ)/10, -(1:ℚ)/2]).map (fun m => -m * 100) :=
  (C8_optimizer_dd_amended [(1:ℚ)/10, -(1:ℚ)/2] (by simp) (by
    intro x hx
    rcases List.mem_cons.1 hx with rfl | hx2
    · norm_num
    · rcases List.mem_cons.1 hx2 with rfl | hx3
      · norm_num
      · simp at hx3)).1

/-! ## Claim C9: optimizer selection -/

theorem listMax_eq_none (l : List ℚ) (h : listMax l = none) : l = [] := by
  cases l with
  | nil => rfl
  | cons a as =>
    rw [listMax] at h
    cases h2 : listMax as <;> rw [h2] at h <;> simp at h

theorem listMax_ge_mem : ∀ (l : List ℚ) (m x : ℚ), listMax l = some m → x ∈ l → x ≤ m := by
  intro l
  induction l with
  | nil => intro m x _ hx; simp at hx
  | cons y ys ih =>
    intro m x hm hx
    rw [listMax] at hm
    cases h : listMax ys with
    | none =>
      rw [h] at hm
      simp only [Option.some.injEq] at hm
      have hys := listMax_eq_none ys h
      subst hys
      simp only [List.mem_cons, List.not_mem_nil, or_false] at hx
      rw [← hm, hx]
    | some m' =>
      rw [h] at hm
      simp only [Option.some.injEq] at hm
      rcases List.mem_cons.1 hx with rfl | hx2
      · rw [← hm]
        exact le_max_left x m'
      · rw [← hm]
        exact le_trans (ih m' x h hx2) (le_max_right y m')

theorem argminIdx_spec (l : List ℚ) (hne : l ≠ []) :
    ∃ m, listMin l = some m ∧ argminIdx l < l.length ∧
      l.getD (argminIdx l) 0 = m ∧ ∀ j < argminIdx l, m < l.getD j 0 := by
  induction l with
  | nil => exact absurd rfl hne
  | cons x xs ih =>
    cases hx : listMin xs with
    | none =>
      have hxs := listMin_eq_none xs hx
      subst hxs
      refine ⟨x, rfl, ?_, rfl, ?_⟩
      · simp [argminIdx, listMin]
      · intro j hj
        simp [argminIdx, listMin] at hj
    | some m' =>
      have hxs : xs ≠ [] := by
        rintro rfl
        simp [listMin] at hx
      rcases ih hxs with ⟨m'', hm'', hlt, hget, hstab⟩
      rw [hx] at hm''
      injection hm'' with he
      subst he
      by_cases hle : x ≤ m'
      · refine ⟨min x m', by rw [listMin, hx], ?_, ?_, ?_⟩
        · simp [argminIdx, hx, if_pos hle]
        · simp [argminIdx, hx, if_pos hle, min_eq_left hle]
        · intro j hj
          simp [argminIdx, hx, if_pos hle] at hj
      · refine ⟨min x m', by rw [listMin, hx], ?_, ?_, ?_⟩
        · simp only [argminIdx, hx, if_neg hle, List.length_cons]
          omega
        · simp only [argminIdx, hx, if_neg hle, List.getD_cons_succ]
          rw [hget, min_eq_right (le_of_not_le hle)]
        · intro j hj
          simp only [argminIdx, hx, if_neg hle] at hj
          rcases j with _ | j'
          · simp only [List.getD_cons_zero]
            rw [min_eq_right (le_of_not_le hle)]
            exact not_le.1 hle
          · simp only [List.getD_cons_succ]
            rw [min_eq_right (le_of_not_le hle)]
            exact hstab j' (by omega)

theorem argmaxIdx_spec (l : List ℚ) (hne : l ≠ []) :
    ∃ m, listMax l = some m ∧ argmaxIdx l < l.length ∧
      l.getD (argmaxIdx l) 0 = m ∧ ∀ j < argmaxIdx l, l.getD j 0 < m := by
  induction l with
  | nil => exact absurd rfl hne
  | cons x xs ih =>
    cases hx : listMax xs with
    | none =>
      have hxs := listMax_eq_none xs hx
      subst hxs
      refine ⟨x, rfl, ?_, rfl, ?_⟩
      · simp [argmaxIdx, listMax]
      · intro j hj
        simp [argmaxIdx, listMax] at hj
    | some m' =>
      have hxs : xs ≠ [] := by
        rintro rfl
        simp [listMax] at hx
      rcases ih hxs with ⟨m'', hm'', hlt, hget, hstab⟩
      rw [hx] at hm''
      injection hm'' with he
      subst he
      by_cases hle : m' ≤ x
      · refine ⟨max x m', by rw [listMax, hx], ?_, ?_, ?_⟩
        · simp [argmaxIdx, hx, if_pos hle]
        · simp [argmaxIdx, hx, if_pos hle, max_eq_left hle]
        · intro j hj
          simp [argmaxIdx, hx, if_pos hle] at hj
      · refine ⟨max x m', by rw [listMax, hx], ?_, ?_, ?_⟩
        · simp only [argmaxIdx, hx, if_neg hle, List.length_cons]
          omega
        · simp only [argmaxIdx, hx, if_neg hle, List.getD_cons_succ]
          rw [hget, max_eq_right (le_of_not_le hle)]
        · intro j hj
          simp only [argmaxIdx, hx, if_neg hle] at hj
          rcases j with _ | j'
          · simp only [List.getD_cons_zero]
            rw [max_eq_right (le_of_not_le hle)]
            exact not_le.1 hle
          · simp only [List.getD_cons_succ]
            rw [max_eq_right (le_of_not_le hle)]
            exact hstab j' (by omega)

theorem getD_mem_of_lt (l : List ℚ) (j : ℕ) (hj : j < l.length) :
    l.getD j 0 ∈ l := by
  rw [List.getD_eq_getElem?_getD, List.getElem?_eq_getElem hj]
  exact List.getElem_mem hj

theorem argminIdx_le_getD (l : List ℚ) (j : ℕ) (hj : j < l.length) :
    l.getD (argminIdx l) 0 ≤ l.getD j 0 := by
  have hne : l ≠ [] := by rintro rfl; simp at hj
  rcases argminIdx_spec l hne with ⟨m, hm, _, hget, _⟩
  rw [hget]
  exact listMin_le_mem l m _ hm (getD_mem_of_lt l j hj)

theorem argminIdx_stab_ne (l : List ℚ) (j : ℕ) (hj : j < argminIdx l) :
    l.getD (argminIdx l) 0 ≠ l.getD j 0 := by
  have hne : l ≠ [] := by rintro rfl; simp [argminIdx] at hj
  rcases argminIdx_spec l hne with ⟨m, _, _, hget, hstab⟩
  rw [hget]
  exact ne_of_lt (hstab j hj)

theorem argmaxIdx_stab_ne (l : List ℚ) (j : ℕ) (hj : j < argmaxIdx l) :
    l.getD (argmaxIdx l) 0 ≠ l.getD j 0 := by
  have hne : l ≠ [] := by rintro rfl; simp [argmaxIdx] at hj
  rcases argmaxIdx_spec l hne with ⟨m, _, _, hget, hstab⟩
  rw [hget]
  exact (hstab j hj).ne'

theorem getD_map_of_lt (f : ℚ → ℚ) (l : List ℚ) (j : ℕ) (hj : j < l.length) :
    (l.map f).getD j 0 = f (l.getD j 0) := by
  rw [List.getD_eq_getElem?_getD, List.getD_eq_getElem?_getD,
    List.getElem?_eq_getElem hj,
    List.getElem?_eq_getElem (by simpa using hj : j < (l.map f).length)]
  simp

/-- C9: under `Minimum Volatility` the selected sample's annualized
volatility is ≤ every other sample's; under `Beta` the selected sample's
`|beta - 1|` is ≤ every other sample's; and for every objective, ties are
broken by the first-occurring index: every earlier index scores strictly
differently from the selected one (stable argmax/argmin). -/
theorem C9_selection_optimal_stable (s : SampleStats) (rf_percent : ℚ) :
    (∀ j, j < s.total_vol.length →
      s.total_vol.getD (best_idx Metric.minimumVolatility s rf_percent) 0 ≤
        s.total_vol.getD j 0) ∧
    (∀ j, j < s.beta_vals.length →
      |s.beta_vals.getD (best_idx Metric.betaM s rf_percent) 0 - 1| ≤
        |s.beta_vals.getD j 0 - 1|) ∧
    (∀ (m : Metric) (j : ℕ), j < best_idx m s rf_percent →
      (selectionScores m s rf_percent).getD (best_idx m s rf_percent) 0 ≠
        (selectionScores m s rf_percent).getD j 0) := by
  refine ⟨?_, ?_, ?_⟩
  · intro j hj
    exact argminIdx_le_getD s.total_vol j hj
  · intro j hj
    have hmap : j < (s.beta_vals.map (fun b => |b - 1|)).length := by
      simpa using hj
    have h := argminIdx_le_getD (s.beta_vals.map (fun b => |b - 1|)) j hmap
    have hlt : argminIdx (s.beta_vals.map (fun b => |b - 1|)) < s.beta_vals.length := by
      rcases argminIdx_spec (s.beta_vals.map (fun b => |b - 1|))
          (by rintro hnil; rw [hnil] at hmap; simp at hmap) with ⟨m, _, hlen, _, _⟩
      simpa using hlen
    rw [getD_map_of_lt _ _ j hj, getD_map_of_lt _ _ _ hlt] at h
    exact h
  · intro m j hj
    cases m with
    | minimumVolatility => exact argminIdx_stab_ne _ j hj
    | betaM => exact argminIdx_stab_ne _ j hj
    | sortinoRatioM => exact argmaxIdx_stab_ne _ j hj
    | sharpeRatioM => exact argmaxIdx_stab_ne _ j hj
    | annualizedReturnM => exact argmaxIdx_stab_ne _ j hj
    | calmarRatioM => exact argmaxIdx_stab_ne _ j hj
    | sortinoCalmarM => exact argmaxIdx_stab_ne _ j hj

/-- C9 witness: a concrete two-sample statistics set; the minimum
volatility selection (index 1, volatility 3 vs 5) dominates sample 0. -/
theorem C9_selection_optimal_stable_witness :
    (SampleStats.mk [1, 2] [1, 2] [5, 3] [1, 2] [2, 9/10]).total_vol.getD
        (best_idx Metric.minimumVolatility
          (SampleStats.mk [1, 2] [1, 2] [5, 3] [1, 2] [2, 9/10]) 3) 0 ≤
      (SampleStats.mk [1, 2] [1, 2] [5, 3] [1, 2] [2, 9/10]).total_vol.getD 0 0 :=
  (C9_selection_optimal_stable (SampleStats.mk [1, 2] [1, 2] [5, 3] [1, 2] [2, 9/10]) 3).1
    0 (by simp)
